import Mathlib

/-!
Verification development for the document-summarization orchestration core
(`app/summarize/summarization_agent.py`).

The Python source is shallowly embedded: Python `int` becomes `ℤ`, Python
`float` percentages become `ℚ` (the arithmetic the development observes is
exact in binary floating point as well), Python `set` of pages becomes
`Finset ℤ`, Python `dict` (insertion-ordered) becomes an association list,
and the heuristic token estimate `int(chars * 0.3)` becomes `(chars * 3) / 10`
over `ℕ` (`0.3` read as the exact ratio 3/10).
-/

set_option maxHeartbeats 1000000
set_option maxRecDepth 10000

/-- Embeds `ProgressTracker` (dataclass, lines 34-149 of the source).
`pages_read` is the Python `Set[int]`; `sections_filled` and
`section_summaries` are insertion-ordered dicts, embedded as
association lists. -/
structure ProgressTracker where
  total_pages : ℤ := 0
  total_lines : ℤ := 0
  is_pdf : Bool := true
  pages_read : Finset ℤ := ∅
  line_ranges_read : List (ℤ × ℤ) := []
  template_created : Bool := false
  sections_identified : List String := []
  sections_filled : List (String × Bool) := []
  current_phase : String := "INIT"
  extraction_complete : Bool := false
  section_summaries : List (String × String) := []
deriving DecidableEq

/-- Embeds `ProgressTracker.mark_pages_read`: `for page in range(start, end+1): pages_read.add(page)`,
i.e. union with the integer interval `[start, end]`. -/
def mark_pages_read (t : ProgressTracker) (start stop : ℤ) : ProgressTracker :=
  { t with pages_read := t.pages_read ∪ Finset.Icc start stop }

/-- Embeds `ProgressTracker.mark_lines_read`: appends the pair to `line_ranges_read`. -/
def mark_lines_read (t : ProgressTracker) (start stop : ℤ) : ProgressTracker :=
  { t with line_ranges_read := t.line_ranges_read ++ [(start, stop)] }

/-- The ascending list of integers from `a` to `b` inclusive (Python `range(a, b+1)`). -/
def intRange (a b : ℤ) : List ℤ :=
  (List.range (b + 1 - a).toNat).map (fun i : ℕ => a + (i : ℤ))

/-- Embeds `ProgressTracker.get_unread_pages`: `sorted(set(range(1, total_pages+1)) - pages_read)`,
computed as the ascending enumeration of `[1, total_pages]` with the read pages removed
(the same list: the range is already sorted and duplicate-free). -/
def get_unread_pages (t : ProgressTracker) : List ℤ :=
  (intRange 1 t.total_pages).filter (fun p => p ∉ t.pages_read)

/-- Embeds `ProgressTracker.get_next_chunk` (default `chunk_size=10`): for PDFs, the chunk starts
at the first unread page and runs to `min(start + chunk_size - 1, total_pages)`;
for text files it continues after the largest line already read. -/
def get_next_chunk (t : ProgressTracker) (chunk_size : ℤ := 10) : Option (ℤ × ℤ) :=
  if t.is_pdf then
    match get_unread_pages t with
    | [] => none
    | s :: _ => some (s, min (s + chunk_size - 1) t.total_pages)
  else
    match t.line_ranges_read with
    | [] => some (1, min (chunk_size * 100) t.total_lines)
    | r :: rs =>
      let max_read := (rs.map Prod.snd).foldl max r.2
      if t.total_lines ≤ max_read then none
      else some (max_read + 1, min (max_read + chunk_size * 100) t.total_lines)

/-- Embeds `ProgressTracker.get_progress_percentage` (floats embedded as `ℚ`). -/
def get_progress_percentage (t : ProgressTracker) : ℚ :=
  if t.is_pdf then
    if t.total_pages = 0 then 0
    else ((t.pages_read.card : ℚ) / (t.total_pages : ℚ)) * 100
  else
    if t.total_lines = 0 then 0
    else
      let lines_read : ℤ := (t.line_ranges_read.map (fun r => r.2 - r.1 + 1)).sum
      min (((lines_read : ℚ) / (t.total_lines : ℚ)) * 100) 100

/-- Embeds `ProgressTracker.is_reading_complete`: for PDFs a cardinality test
`len(pages_read) >= total_pages`; for text files, the largest line end read
reaches `total_lines`. -/
def is_reading_complete (t : ProgressTracker) : Bool :=
  if t.is_pdf then
    decide (t.total_pages ≤ (t.pages_read.card : ℤ))
  else
    match t.line_ranges_read with
    | [] => false
    | r :: rs => decide (t.total_lines ≤ (rs.map Prod.snd).foldl max r.2)

/-- Update-or-append on an insertion-ordered dict embedded as an association list. -/
def dictSet {β : Type} (m : List (String × β)) (k : String) (v : β) : List (String × β) :=
  if (m.lookup k).isSome then m.map (fun p => if p.1 = k then (k, v) else p)
  else m ++ [(k, v)]

/-- Embeds `ProgressTracker.mark_section_filled`: sets the fill flag to `True` and, when the
summary is non-empty, stores `summary[:500]`. -/
def mark_section_filled (t : ProgressTracker) (section_name : String) (summary : String := "") :
    ProgressTracker :=
  { t with
    sections_filled := dictSet t.sections_filled section_name true
    section_summaries :=
      if summary ≠ "" then dictSet t.section_summaries section_name (summary.take 500)
      else t.section_summaries }

/-- Embeds `ProgressTracker.get_unfilled_sections`. -/
def get_unfilled_sections (t : ProgressTracker) : List String :=
  t.sections_identified.filter (fun s => ((t.sections_filled.lookup s).getD false) = false)

/-- A fresh page tracker with the given total, as built by the agent for a PDF input
(`ProgressTracker(is_pdf=True)` followed by `get_pdf_info` setting `total_pages`). -/
def mkTracker (total : ℤ) : ProgressTracker := { total_pages := total }

/-- Folds a list of `markRead(start, end)` calls over a tracker, in order. -/
def applyCalls (t : ProgressTracker) (calls : List (ℤ × ℤ)) : ProgressTracker :=
  calls.foldl (fun t c => mark_pages_read t c.1 c.2) t

/-- Modelled from the spec's words for comparison ("the union of the marked ranges
covers every unit of [1, total]"): every page of `[1, total]` lies in some call's range. -/
def callsCover (calls : List (ℤ × ℤ)) (total : ℤ) : Prop :=
  ∀ p : ℤ, 1 ≤ p → p ≤ total → ∃ c ∈ calls, c.1 ≤ p ∧ p ≤ c.2

/-- One entry of an assistant message's `tool_calls` list. `id` embeds
`tc.get("id", "")` (a missing id reads as `""`); `name`/`arguments` are the
function name and its JSON-encoded arguments. -/
structure ToolCall where
  id : String
  name : String := ""
  arguments : String := ""
deriving DecidableEq

/-- A conversation message. The source passes both plain dicts and litellm
`Message` objects through the same code and probes them by duck typing;
`isObject` records which of the two a message is (`hasattr(msg, 'tool_calls')`
holds exactly for the objects). `tool_call_id` embeds `msg.get("tool_call_id")`
(`none` when absent). -/
structure Msg where
  role : String
  content : String := ""
  tool_calls : List ToolCall := []
  tool_call_id : Option String := none
  isObject : Bool := false
deriving DecidableEq

/-- Embeds `ContextManager._get_tool_call_ids`: the set of ids of a message's tool calls,
kept as a duplicate-free list in first-occurrence order. -/
def get_tool_call_ids (m : Msg) : List String :=
  (m.tool_calls.map (fun tc => tc.id)).dedup

/-- The combined test `role == "assistant" and self._has_tool_calls(msg)` used at
every branching site of the source (`_has_tool_calls` itself is the truthiness
of `msg.get("tool_calls")`). -/
def has_tool_calls (m : Msg) : Prop :=
  m.role = "assistant" ∧ m.tool_calls ≠ []

instance (m : Msg) : Decidable (has_tool_calls m) := by
  unfold has_tool_calls; infer_instance

/-- Character weight of one message inside `ContextManager.estimate_tokens`:
`len(str(content))` plus, for object messages only (`hasattr` duck typing),
the lengths of every tool call's name and arguments. -/
def msgChars (m : Msg) : ℕ :=
  m.content.length +
    (if m.isObject = true ∧ m.tool_calls ≠ [] then
      (m.tool_calls.map (fun tc => tc.name.length + tc.arguments.length)).sum
    else 0)

/-- Embeds `ContextManager.estimate_tokens`: `int(total_chars * 0.3)`, with the ratio
`tokens_per_char = 0.3` read as the exact rational 3/10. -/
def estimate_tokens (msgs : List Msg) : ℕ :=
  ((msgs.map msgChars).sum * 3) / 10

/-- The configurable fields of `ContextManager` (`tokens_per_char` stays at its
default 0.3, which `estimate_tokens` hard-embeds). `max_tokens` is a Python int,
mutated by the agent's overflow handler, hence `ℤ`. -/
structure ContextManager where
  max_tokens : ℤ := 200000
  min_recent_messages : ℕ := 10
deriving DecidableEq

/-- Helper for `_group_messages_by_conversation_units`: collects the maximal run of
leading tool messages whose `tool_call_id` is among `ids`, returning the absorbed
run and the rest of the list (the Python inner `while`). -/
def collectToolRun (ids : List String) : List Msg → List Msg × List Msg
  | [] => ([], [])
  | m :: rest =>
    if m.role = "tool" then
      match m.tool_call_id with
      | some tid =>
        if tid ∈ ids then
          let p := collectToolRun ids rest
          (m :: p.1, p.2)
        else ([], m :: rest)
      | none => ([], m :: rest)
    else ([], m :: rest)

theorem collectToolRun_snd_length (ids : List String) :
    ∀ l : List Msg, (collectToolRun ids l).2.length ≤ l.length := by
  intro l
  induction l with
  | nil => simp [collectToolRun]
  | cons m rest ih =>
    simp only [collectToolRun]
    split
    · split
      · split
        · simpa using Nat.le_succ_of_le ih
        · simp
      · simp
    · simp

/-- Fuel-driven worker for `_group_messages_by_conversation_units` (structural in
the fuel so that concrete runs compute inside the kernel; the fuel is immaterial
once it is at least the list length, see `groupUnitsF_fuel_irrel`). -/
def groupUnitsF : ℕ → List Msg → List (List Msg)
  | _, [] => []
  | 0, _ :: _ => []
  | fuel + 1, m :: rest =>
    if has_tool_calls m then
      let p := collectToolRun (get_tool_call_ids m) rest
      (m :: p.1) :: groupUnitsF fuel p.2
    else [m] :: groupUnitsF fuel rest

theorem groupUnitsF_fuel_irrel :
    ∀ (fuel fuel' : ℕ) (msgs : List Msg), msgs.length ≤ fuel → msgs.length ≤ fuel' →
      groupUnitsF fuel msgs = groupUnitsF fuel' msgs := by
  intro fuel
  induction fuel with
  | zero =>
    intro fuel' msgs h _
    cases msgs with
    | nil => cases fuel' <;> rfl
    | cons m rest => simp at h
  | succ fuel ih =>
    intro fuel' msgs h h'
    cases msgs with
    | nil => cases fuel' <;> rfl
    | cons m rest =>
      cases fuel' with
      | zero => simp at h'
      | succ fuel' =>
        simp only [groupUnitsF]
        simp only [List.length_cons, Nat.succ_le_succ_iff] at h h'
        split
        · have hlen := collectToolRun_snd_length (get_tool_call_ids m) rest
          rw [ih fuel' _ (le_trans hlen h) (le_trans hlen h')]
        · rw [ih fuel' rest h h']

/-- Embeds `ContextManager._group_messages_by_conversation_units`: one left-to-right pass;
an assistant message with tool calls opens a unit absorbing the immediately
following matching tool responses, anything else is a singleton unit. -/
def groupUnits (msgs : List Msg) : List (List Msg) :=
  groupUnitsF msgs.length msgs

/-- Unfolding equation: a message that opens no tool-call unit is a singleton unit. -/
theorem groupUnits_cons_simple {m : Msg} (h : ¬ has_tool_calls m) (rest : List Msg) :
    groupUnits (m :: rest) = [m] :: groupUnits rest := by
  unfold groupUnits
  simp only [List.length_cons, groupUnitsF]
  rw [if_neg h]

/-- Unfolding equation: an assistant message with tool calls absorbs the matching
tool-response run. -/
theorem groupUnits_cons_calls {m : Msg} (h : has_tool_calls m) (rest : List Msg) :
    groupUnits (m :: rest) =
      (m :: (collectToolRun (get_tool_call_ids m) rest).1) ::
        groupUnits (collectToolRun (get_tool_call_ids m) rest).2 := by
  unfold groupUnits
  simp only [List.length_cons, groupUnitsF]
  rw [if_pos h]
  have hlen := collectToolRun_snd_length (get_tool_call_ids m) rest
  rw [groupUnitsF_fuel_irrel rest.length _ _ hlen (le_refl _)]

/-- The placeholder tool-result the repair pass synthesizes for a missing id. -/
def placeholderMsg (tid : String) : Msg :=
  { role := "tool", tool_call_id := some tid, content := "(response truncated)" }

/-- The forward pass of `ContextManager._validate_and_fix_messages`, carrying the
`pending_tool_ids` set (a duplicate-free list). A tool message is kept only when
its id is pending (and the id is then discarded); an assistant message with tool
calls replaces the pending set by its ids; any other message first flushes
placeholders for every still-pending id; ids still pending at the end are
flushed as trailing placeholders. Python iterates the pending `set` in
unspecified order when flushing; the embedding uses the list's order. -/
def validateFixGo : List Msg → List String → List Msg
  | [], pending => pending.map placeholderMsg
  | m :: rest, pending =>
    if m.role = "tool" then
      match m.tool_call_id with
      | some tid =>
        if tid ∈ pending then m :: validateFixGo rest (pending.erase tid)
        else validateFixGo rest pending
      | none => validateFixGo rest pending
    else if has_tool_calls m then
      m :: validateFixGo rest (get_tool_call_ids m)
    else
      pending.map placeholderMsg ++ m :: validateFixGo rest []

/-- Embeds `ContextManager._validate_and_fix_messages`. -/
def validate_and_fix_messages (msgs : List Msg) : List Msg :=
  validateFixGo msgs []

/-- Python `str.format` of a float percentage with `:.1f`, for the recovery
summary's progress line (one decimal digit; rounding approximated half-up —
the development proves nothing about this text). -/
def fmtPct (q : ℚ) : String :=
  let n : ℤ := ⌊q * 10 + 1 / 2⌋
  toString (n / 10) ++ "." ++ toString (n % 10)

/-- Python `str` of a bool (`True` / `False`). -/
def pyBool (b : Bool) : String := if b then "True" else "False"

/-- Python `str` of a list of strings: `['a', 'b']`. -/
def pyStrList (l : List String) : String :=
  "[" ++ String.intercalate ", " (l.map (fun s => "\x27" ++ s ++ "\x27")) ++ "]"

/-- Embeds `ProgressTracker.get_context_summary`: the compact textual progress summary
injected into the recovery message (percent, pages, phase, sections, next chunk,
bounded section summaries). -/
def get_context_summary (t : ProgressTracker) : String :=
  let parts : List String :=
    ["=== PROGRESS STATE ===",
     "Total pages: " ++ toString t.total_pages,
     "Pages read: " ++ toString t.pages_read.card ++ " (" ++
       fmtPct (get_progress_percentage t) ++ "%)",
     "Pages read: " ++ toString (t.pages_read.sort (· ≤ ·)),
     "Phase: " ++ t.current_phase,
     "Template created: " ++ pyBool t.template_created,
     "Sections filled: " ++ pyStrList (t.sections_filled.map Prod.fst),
     "Unfilled: " ++ pyStrList (get_unfilled_sections t)]
  let parts := parts ++
    (match get_next_chunk t with
     | some c => ["NEXT: Read pages " ++ toString c.1 ++ "-" ++ toString c.2]
     | none => [])
  let parts := parts ++
    (if t.section_summaries ≠ [] then
      "\n=== SECTION SUMMARIES ===" ::
        t.section_summaries.map (fun p => "[" ++ p.1 ++ "]: " ++ p.2.take 150 ++ "...")
    else [])
  String.intercalate "\n" parts

/-- The recovery message `truncate_if_needed` synthesizes: a user message holding
the progress summary and the instruction to re-query progress and continue. -/
def recoveryMsg (tracker : Option ProgressTracker) : Msg :=
  let context_summary := match tracker with
    | some t => get_context_summary t
    | none => ""
  { role := "user",
    content := "⚠️ CONTEXT TRUNCATED\n\nPrevious conversation was truncated. Here's the current state:\n\n"
      ++ context_summary
      ++ "\n\nCONTINUE from where you left off. Call `get_progress()` to see current state." }

/-- The newest-to-oldest greedy scan of `truncate_if_needed`, on the reversed
remaining units: keep a unit while the running total still fits `available`,
stop at the first overflow. -/
def greedyTake : List (List Msg) → ℤ → ℤ → List (List Msg)
  | [], _, _ => []
  | u :: rest, used, available =>
    let ut : ℤ := estimate_tokens u
    if used + ut ≤ available then u :: greedyTake rest (used + ut) available
    else []

/-- The recent units the greedy scan keeps, in original order
(`kept_units.insert(0, unit)` builds them front-to-back). -/
def selectKept (remaining : List (List Msg)) (available : ℤ) : List (List Msg) :=
  (greedyTake remaining.reverse 0 available).reverse

/-- Embeds `available_tokens = max_tokens - start_tokens - recovery_tokens - 10000` with
`start_tokens` the summed estimates of the two preserved units and
`recovery_tokens = int(len(recovery content) * 0.3)`. -/
def availableTokens (cm : ContextManager) (msgs : List Msg) (tracker : Option ProgressTracker) : ℤ :=
  let start_tokens : ℤ := (((groupUnits msgs).take 2).map (fun u => estimate_tokens u)).sum
  let recovery_tokens : ℤ := ((recoveryMsg tracker).content.length * 3) / 10
  cm.max_tokens - start_tokens - recovery_tokens - 10000

/-- The recent units retained by `truncate_if_needed`: the greedy selection, or —
when fewer than `min_recent_messages // 2` units survived and anything remains —
the forced tail of the last `max(3, min_recent_messages // 3)` units kept
regardless of budget. -/
def keptUnits (cm : ContextManager) (msgs : List Msg) (tracker : Option ProgressTracker) :
    List (List Msg) :=
  let remaining := (groupUnits msgs).drop 2
  let kept := selectKept remaining (availableTokens cm msgs tracker)
  if kept.length < cm.min_recent_messages / 2 ∧ remaining ≠ [] then
    remaining.drop (remaining.length - max 3 (cm.min_recent_messages / 3))
  else kept

/-- The concatenation `kept-start ++ recovery ++ kept-recent` that
`truncate_if_needed` hands to the repair pass. -/
def preRepair (cm : ContextManager) (msgs : List Msg) (tracker : Option ProgressTracker) :
    List Msg :=
  ((groupUnits msgs).take 2).flatten ++ [recoveryMsg tracker] ++ (keptUnits cm msgs tracker).flatten

/-- Embeds `ContextManager.truncate_if_needed`: a no-op when the estimate fits the budget
or when at most three units exist; otherwise keeps the first two units, inserts
the recovery message, appends the greedily (or forcibly) kept recent units, and
runs the repair pass over the result. -/
def truncate_if_needed (cm : ContextManager) (msgs : List Msg)
    (tracker : Option ProgressTracker := none) : List Msg :=
  if (estimate_tokens msgs : ℤ) ≤ cm.max_tokens then msgs
  else if (groupUnits msgs).length ≤ 3 then msgs
  else validate_and_fix_messages (preRepair cm msgs tracker)

/-- Claim-side predicate (from the spec's words): scanning the list while
remembering the ids of the nearest preceding assistant-with-tool-calls message,
every tool message's id must belong to those ids — i.e. no orphan tool-results. -/
def orphanOk : List Msg → List String → Bool
  | [], _ => true
  | m :: rest, lastIds =>
    if m.role = "tool" then
      (match m.tool_call_id with
       | some tid => decide (tid ∈ lastIds)
       | none => false) && orphanOk rest lastIds
    else if has_tool_calls m then orphanOk rest (get_tool_call_ids m)
    else orphanOk rest lastIds

/-- The ids answered by the tool messages of a list. -/
def toolAnswerIds (msgs : List Msg) : List String :=
  msgs.filterMap (fun m => if m.role = "tool" then m.tool_call_id else none)

/-- Claim-side predicate (from the spec's words): every tool-call id of every
retained assistant message is answered by some later tool-result — i.e. no
unanswered tool-calls. -/
def unansweredFree : List Msg → Bool
  | [] => true
  | m :: rest =>
    (if has_tool_calls m then
      (get_tool_call_ids m).all (fun i => decide (i ∈ toolAnswerIds rest))
    else true) && unansweredFree rest

/-- The repair scan's pending set, checked to be empty whenever a fresh
assistant-with-tool-calls message replaces it: under this input condition the
repair pass never silently drops an unanswered id. -/
def pendingOkGo : List Msg → List String → Bool
  | [], _ => true
  | m :: rest, pending =>
    if m.role = "tool" then
      match m.tool_call_id with
      | some tid =>
        if tid ∈ pending then pendingOkGo rest (pending.erase tid)
        else pendingOkGo rest pending
      | none => pendingOkGo rest pending
    else if has_tool_calls m then
      pending.isEmpty && pendingOkGo rest (get_tool_call_ids m)
    else pendingOkGo rest []

/-- Inputs on which no assistant-with-tool-calls message arrives while earlier
tool-call ids are still pending. -/
def inputOk (msgs : List Msg) : Bool :=
  pendingOkGo msgs []

/-- A tool handler's Python return value: `None`, `str`, `list` (elements already
rendered by `str(item)`), or `dict` (embedded as ordered string pairs; other
types share the `json.dumps` fallback branch). -/
inductive PyResult where
  | pyNone
  | pyStr (s : String)
  | pyList (items : List String)
  | pyDict (entries : List (String × String))
deriving DecidableEq

/-- Embeds `json.dumps(result, indent=2, default=str)` on a string-to-string dict
(JSON escaping of exotic characters is not modelled). -/
def jsonDumpsIndent2 (entries : List (String × String)) : String :=
  if entries = [] then "\x7b\x7d"
  else
    "\x7b\n" ++
      String.intercalate ",\n"
        (entries.map (fun e => "  \"" ++ e.1 ++ "\": \"" ++ e.2 ++ "\"")) ++
      "\n\x7d"

/-- The normalization of a tool handler's return value inside
`DocumentSummarizationAgent._execute_function` (lines 930-937): `None` becomes
`"Success"`, a string passes through, a list becomes its newline-join — except
that an empty list becomes `"(empty)"` — and anything else goes through
`json.dumps(..., indent=2)`. -/
def normalize_result : PyResult → String
  | .pyNone => "Success"
  | .pyStr s => s
  | .pyList items =>
    if items = [] then "(empty)"
    else String.intercalate "\n" items
  | .pyDict entries => jsonDumpsIndent2 entries

/-- The keyword arguments of the `update_progress` tool handler (every argument
optional, `None` when not passed). -/
structure UpdateArgs where
  pages_read_start : Option ℤ := none
  pages_read_end : Option ℤ := none
  lines_read_start : Option ℤ := none
  lines_read_end : Option ℤ := none
  template_created : Option Bool := none
  sections_identified : Option (List String) := none
  section_filled : Option String := none
  section_summary : Option String := none
  current_phase : Option String := none
deriving DecidableEq

/-- Block 1 of `update_progress`: `mark_pages_read` when both page arguments were
passed. -/
def up_pages (t : ProgressTracker) (a : UpdateArgs) : ProgressTracker :=
  match a.pages_read_start, a.pages_read_end with
  | some s, some e => mark_pages_read t s e
  | _, _ => t

/-- Block 2 of `update_progress`: `mark_lines_read` when both line arguments were
passed. -/
def up_lines (t : ProgressTracker) (a : UpdateArgs) : ProgressTracker :=
  match a.lines_read_start, a.lines_read_end with
  | some s, some e => mark_lines_read t s e
  | _, _ => t

/-- Block 3 of `update_progress`: overwrite `template_created` when passed. -/
def up_template (t : ProgressTracker) (a : UpdateArgs) : ProgressTracker :=
  match a.template_created with
  | some b => { t with template_created := b }
  | none => t

/-- The per-section initialization of the `sections_identified` block:
`if section not in sections_filled: sections_filled[section] = False`. -/
def initFill (m : List (String × Bool)) (s : String) : List (String × Bool) :=
  if (m.lookup s).isNone then m ++ [(s, false)] else m

/-- Block 4 of `update_progress` (lines 187-191): overwrite the identified section
list and initialize the fill flag to `False` only for sections that have no
entry yet. -/
def up_sections (t : ProgressTracker) (a : UpdateArgs) : ProgressTracker :=
  match a.sections_identified with
  | some l =>
    { t with
      sections_identified := l
      sections_filled := l.foldl initFill t.sections_filled }
  | none => t

/-- Block 5 of `update_progress`: `mark_section_filled` when passed
(`section_summary or ""`). -/
def up_section_filled (t : ProgressTracker) (a : UpdateArgs) : ProgressTracker :=
  match a.section_filled with
  | some name => mark_section_filled t name (a.section_summary.getD "")
  | none => t

/-- Block 6 of `update_progress`: overwrite `current_phase` when passed. -/
def up_phase (t : ProgressTracker) (a : UpdateArgs) : ProgressTracker :=
  match a.current_phase with
  | some p => { t with current_phase := p }
  | none => t

/-- The state transition of the `update_progress` tool handler (lines 163-199;
the handler's JSON-string return value is produced from the updated tracker and
not modelled): the six argument blocks applied in source order. -/
def update_progress (t : ProgressTracker) (a : UpdateArgs) : ProgressTracker :=
  up_phase (up_section_filled (up_sections (up_template (up_lines (up_pages t a) a) a) a) a) a

/-- One assistant response from the completion service: its text content and its
requested tool calls. -/
structure LLMResponse where
  content : String := ""
  tool_calls : List ToolCall := []
deriving DecidableEq

/-- The outcome of one `litellm.completion` call: a response, or a
`ContextWindowExceededError`/`BadRequestError`. `recoverable` records whether
`"tool"` or `"context"` occurs in the error text (the condition under which the
agent shrinks the budget and retries once). -/
inductive LLMOutcome where
  | ok (resp : LLMResponse)
  | apiError (recoverable : Bool)
deriving DecidableEq

/-- The external world of `DocumentSummarizationAgent.run`: what each completion
call returns, what its single retry returns (`none` = the retry raised too), and
what each tool dispatch does (`_execute_function` catches handler exceptions and
returns an error string, and the handlers may rewrite the module-level tracker;
`none` models the one uncaught spot, `json.loads` failing on the arguments).
Quantifying theorems over `Env` quantifies over every model behavior and every
tool-handler behavior. -/
structure Env where
  complete : ℕ → List Msg → LLMOutcome
  retryComplete : ℕ → List Msg → Option LLMResponse
  execTool : ToolCall → Option ProgressTracker → Option (String × Option ProgressTracker)

/-- How `run` can leave the iteration: `success` is `return True` (the completion
gate passed), `failure` is `return False` (iteration budget exhausted or failed
retry), `raised` is an exception propagating out. -/
inductive RunResult where
  | success
  | failure
  | raised
deriving DecidableEq

/-- The loop-carried state of `DocumentSummarizationAgent.run`: the conversation,
the module-level tracker, the context manager (whose `max_tokens` the overflow
handler mutates), and the stall detector. -/
structure LoopState where
  cm : ContextManager
  tracker : Option ProgressTracker
  messages : List Msg
  stall_count : ℕ := 0
  last_progress : ℚ := 0

/-- The litellm response message appended to the conversation (an object message:
`hasattr(msg, 'tool_calls')` holds for it). -/
def responseToMsg (resp : LLMResponse) : Msg :=
  { role := "assistant", content := resp.content, tool_calls := resp.tool_calls,
    isObject := true }

/-- Embeds `DocumentSummarizationAgent._check_completion_allowed`: termination is allowed
only when the tracker exists and reading is complete; otherwise the reason names
the first three unread pages. -/
def check_completion_allowed (tracker : Option ProgressTracker) : Bool × String :=
  match tracker with
  | none => (false, "Tracker not initialized")
  | some t =>
    if ¬ (is_reading_complete t = true) then
      (false, "Unread pages: " ++ toString ((get_unread_pages t).take 3) ++ "...")
    else (true, "OK")

/-- The stall check opening each iteration (lines 1007-1026): bump the stall
counter when the percentage is unchanged and positive, and after three stalled
iterations inject a user directive naming the next chunk. -/
def stallStep (st : LoopState) : LoopState :=
  match st.tracker with
  | none => st
  | some t =>
    let current := get_progress_percentage t
    let stall := if current = st.last_progress ∧ 0 < current then st.stall_count + 1 else 0
    let st := { st with last_progress := current, stall_count := stall }
    if 3 ≤ st.stall_count then
      match get_next_chunk t with
      | some c =>
        { st with
          messages := st.messages ++
            [{ role := "user", content := "Read pages " ++ toString c.1 ++ "-" ++ toString c.2 ++ " now." }]
          stall_count := 0 }
      | none => st
    else st

/-- Sequential dispatch of the requested tool calls (lines 1099-1110): each call's
result is appended as a correlated tool message; `none` aborts the run with the
propagating exception. -/
def dispatchTools (env : Env) : List ToolCall → Option ProgressTracker → List Msg →
    Option (List Msg × Option ProgressTracker)
  | [], tracker, msgs => some (msgs, tracker)
  | tc :: rest, tracker, msgs =>
    match env.execTool tc tracker with
    | none => none
    | some (res, tracker') =>
      dispatchTools env rest tracker'
        (msgs ++ [{ role := "tool", tool_call_id := some tc.id, content := res }])

/-- The tail of one iteration after a response arrived (lines 1074-1110): append
the response; with no tool calls consult the completion gate — terminate on
success, else append the rejection and continue; with tool calls dispatch them
and continue. Returns the result together with the final loop state (the Python
function's `return` plus the surviving globals). `fuel` counts the remaining
iterations of `range(start_iteration, max_iterations)`. -/
def afterResponse (env : Env) (runRest : LoopState → RunResult × LoopState)
    (st : LoopState) (resp : LLMResponse) : RunResult × LoopState :=
  let st := { st with messages := st.messages ++ [responseToMsg resp] }
  if resp.tool_calls = [] then
    match check_completion_allowed st.tracker with
    | (true, _) => (.success, st)
    | (false, reason) =>
      runRest { st with
        messages := st.messages ++
          [{ role := "user",
             content := "Cannot finish: " ++ reason ++ ". Call get_progress() and continue." }] }
  else
    match dispatchTools env resp.tool_calls st.tracker st.messages with
    | none => (.raised, st)
    | some (msgs', tracker') => runRest { st with messages := msgs', tracker := tracker' }

/-- The iteration loop of `DocumentSummarizationAgent.run` (lines 1003-1114):
stall check, context truncation, completion call with the single
shrink-and-retry recovery for recoverable API errors, then `afterResponse`.
Checkpoint saves are pure side effects and are omitted. Exhausted fuel is the
`for` loop ending: `return False`. -/
def runLoop (env : Env) : ℕ → LoopState → RunResult × LoopState
  | 0, st => (.failure, st)
  | fuel + 1, st =>
    let st := stallStep st
    let st := { st with messages := truncate_if_needed st.cm st.messages st.tracker }
    match env.complete fuel st.messages with
    | .ok resp => afterResponse env (runLoop env fuel) st resp
    | .apiError recoverable =>
      if recoverable then
        let cm' : ContextManager := { st.cm with max_tokens := (st.cm.max_tokens * 6).tdiv 10 }
        let msgs2 := truncate_if_needed cm' st.messages st.tracker
        let st := { st with cm := cm', messages := msgs2 }
        match env.retryComplete fuel st.messages with
        | none => (.failure, st)
        | some resp => afterResponse env (runLoop env fuel) st resp
      else (.raised, st)

/-- A plain user message (singleton conversation unit), used for concrete runs. -/
def userMsg (s : String) : Msg := { role := "user", content := s }

/-- A string of `n` copies of `a`, used to build conversations of a prescribed
character count without materializing literals. -/
def bigStr (n : ℕ) : String := String.mk (List.replicate n 'a')

/-- Concrete conversation for exercising the greedy truncation path: system and
task prompts, one huge old unit, and three 40-character recent units. -/
def greedyMsgs : List Msg :=
  [{ role := "system", content := "s" }, userMsg "u",
   userMsg (bigStr 33500), userMsg (bigStr 40), userMsg (bigStr 40), userMsg (bigStr 40)]

/-- Concrete context manager for exercising the greedy truncation path: the
budget exceeds the 10000-token safety buffer so the greedy scan can keep a
recent unit. -/
def greedyCm : ContextManager := { max_tokens := 10061, min_recent_messages := 2 }

/-- A concrete environment whose model immediately answers with text and no tool
calls, for exercising the termination gate. -/
def doneEnv : Env :=
  { complete := fun _ _ => .ok { content := "done" },
    retryComplete := fun _ _ => none,
    execTool := fun _ tracker => some ("ok", tracker) }

/-- A concrete starting state over a zero-page (hence already complete) document. -/
def doneState : LoopState :=
  { cm := { max_tokens := 1000, min_recent_messages := 10 },
    tracker := some (mkTracker 0),
    messages := [{ role := "system", content := "s" }, userMsg "go"] }

/-! ## Helper lemmas -/

theorem applyCalls_cons (t : ProgressTracker) (c : ℤ × ℤ) (rest : List (ℤ × ℤ)) :
    applyCalls t (c :: rest) = applyCalls (mark_pages_read t c.1 c.2) rest := rfl

theorem applyCalls_is_pdf (calls : List (ℤ × ℤ)) :
    ∀ t : ProgressTracker, (applyCalls t calls).is_pdf = t.is_pdf := by
  induction calls with
  | nil => intro t; rfl
  | cons c rest ih => intro t; rw [applyCalls_cons, ih]; rfl

theorem applyCalls_total_pages (calls : List (ℤ × ℤ)) :
    ∀ t : ProgressTracker, (applyCalls t calls).total_pages = t.total_pages := by
  induction calls with
  | nil => intro t; rfl
  | cons c rest ih => intro t; rw [applyCalls_cons, ih]; rfl

theorem mem_applyCalls (calls : List (ℤ × ℤ)) :
    ∀ (t : ProgressTracker) (p : ℤ),
      p ∈ (applyCalls t calls).pages_read ↔
        p ∈ t.pages_read ∨ ∃ c ∈ calls, c.1 ≤ p ∧ p ≤ c.2 := by
  induction calls with
  | nil => intro t p; simp [applyCalls]
  | cons c rest ih =>
    intro t p
    rw [applyCalls_cons, ih]
    simp only [mark_pages_read, Finset.mem_union, Finset.mem_Icc, List.mem_cons]
    constructor
    · rintro ((h | h) | ⟨d, hd, h1, h2⟩)
      · exact Or.inl h
      · exact Or.inr ⟨c, Or.inl rfl, h⟩
      · exact Or.inr ⟨d, Or.inr hd, h1, h2⟩
    · rintro (h | ⟨d, (rfl | hd), h1, h2⟩)
      · exact Or.inl (Or.inl h)
      · exact Or.inl (Or.inr ⟨h1, h2⟩)
      · exact Or.inr ⟨d, hd, h1, h2⟩

theorem complete_iff_subset (t : ProgressTracker) (hpdf : t.is_pdf = true)
    (hsub : t.pages_read ⊆ Finset.Icc 1 t.total_pages) :
    is_reading_complete t = true ↔ Finset.Icc 1 t.total_pages ⊆ t.pages_read := by
  unfold is_reading_complete
  rw [hpdf]
  simp only [if_true, decide_eq_true_eq]
  have hcard : (Finset.Icc 1 t.total_pages).card = t.total_pages.toNat := by
    rw [Int.card_Icc]; congr 1; omega
  constructor
  · intro hle
    have h1 : t.total_pages.toNat ≤ t.pages_read.card := Int.toNat_le.mpr hle
    have h2 : (Finset.Icc 1 t.total_pages).card ≤ t.pages_read.card := by rw [hcard]; exact h1
    rw [Finset.eq_of_subset_of_card_le hsub h2]
  · intro hsup
    have h1 : (Finset.Icc 1 t.total_pages).card ≤ t.pages_read.card :=
      Finset.card_le_card hsup
    rw [hcard] at h1
    calc t.total_pages ≤ (t.total_pages.toNat : ℤ) := Int.self_le_toNat _
    _ ≤ (t.pages_read.card : ℤ) := by exact_mod_cast h1

theorem mem_intRange (a b p : ℤ) : p ∈ intRange a b ↔ a ≤ p ∧ p ≤ b := by
  unfold intRange
  simp only [List.mem_map, List.mem_range]
  constructor
  · rintro ⟨i, hi, rfl⟩; omega
  · intro h; exact ⟨(p - a).toNat, by omega, by omega⟩

theorem mem_get_unread_pages (t : ProgressTracker) (p : ℤ) :
    p ∈ get_unread_pages t ↔ 1 ≤ p ∧ p ≤ t.total_pages ∧ p ∉ t.pages_read := by
  unfold get_unread_pages
  simp only [List.mem_filter, mem_intRange, decide_eq_true_eq]
  tauto

theorem intRange_pairwise (a b : ℤ) : (intRange a b).Pairwise (· ≤ ·) := by
  unfold intRange
  refine List.Pairwise.map _ (fun i j h => ?_) (List.pairwise_lt_range _)
  omega

theorem get_unread_pages_pairwise (t : ProgressTracker) :
    (get_unread_pages t).Pairwise (· ≤ ·) :=
  (intRange_pairwise 1 t.total_pages).sublist (List.filter_sublist _)

/-! ## Claim C1 -/

/-- C1, counterexample: the claim quantifies over arbitrary `markRead` calls, but
marking only the out-of-range pages 6..10 of a 5-page document makes
`is_reading_complete` true (it is a cardinality test) although the marked ranges
do not cover [1, 5]. -/
theorem c1_counterexample :
    is_reading_complete (applyCalls (mkTracker 5) [(6, 10)]) = true ∧
      ¬ callsCover [(6, 10)] 5 := by
  constructor
  · decide
  · intro h
    rcases h 1 (by norm_num) (by norm_num) with ⟨c, hc, h1, h2⟩
    rcases List.mem_singleton.mp hc with rfl
    norm_num at h1

/-- C1, amended: restricted to in-range calls (`1 ≤ start`, `end ≤ total` — the
clamping the spec promises does not exist in the code), `is_reading_complete` is
true iff the union of the marked ranges covers [1, total], for every order,
overlap and repetition; and the concrete scenario total=5,
`markRead(1,2); markRead(4,5); markRead(3,3)` ends complete with
`get_progress_percentage` = 100. -/
theorem c1_amended :
    (∀ (total : ℤ) (calls : List (ℤ × ℤ)), 0 ≤ total →
      (∀ c ∈ calls, 1 ≤ c.1 ∧ c.2 ≤ total) →
      (is_reading_complete (applyCalls (mkTracker total) calls) = true ↔
        callsCover calls total)) ∧
    is_reading_complete (applyCalls (mkTracker 5) [(1, 2), (4, 5), (3, 3)]) = true ∧
    get_progress_percentage (applyCalls (mkTracker 5) [(1, 2), (4, 5), (3, 3)]) = 100 := by
  refine ⟨?_, by decide, ?_⟩
  · intro total calls htotal hin
    have hpdf : (applyCalls (mkTracker total) calls).is_pdf = true := by
      rw [applyCalls_is_pdf]; rfl
    have htp : (applyCalls (mkTracker total) calls).total_pages = total := by
      rw [applyCalls_total_pages]; rfl
    have hmem : ∀ p : ℤ, p ∈ (applyCalls (mkTracker total) calls).pages_read ↔
        ∃ c ∈ calls, c.1 ≤ p ∧ p ≤ c.2 := by
      intro p
      rw [mem_applyCalls]
      simp [mkTracker]
    have hsub : (applyCalls (mkTracker total) calls).pages_read ⊆
        Finset.Icc 1 (applyCalls (mkTracker total) calls).total_pages := by
      intro p hp
      rcases (hmem p).mp hp with ⟨c, hc, h1, h2⟩
      rcases hin c hc with ⟨hc1, hc2⟩
      rw [htp, Finset.mem_Icc]
      omega
    rw [complete_iff_subset _ hpdf hsub, htp]
    constructor
    · intro hicc p hp1 hp2
      exact (hmem p).mp (hicc (Finset.mem_Icc.mpr ⟨hp1, hp2⟩))
    · intro hcov p hp
      rw [Finset.mem_Icc] at hp
      exact (hmem p).mpr (hcov p hp.1 hp.2)
  · have hc : (applyCalls (mkTracker 5) [(1, 2), (4, 5), (3, 3)]).pages_read.card = 5 := by
      decide
    have htp : (applyCalls (mkTracker 5) [(1, 2), (4, 5), (3, 3)]).total_pages = 5 := by
      decide
    have hpdf : (applyCalls (mkTracker 5) [(1, 2), (4, 5), (3, 3)]).is_pdf = true := by
      decide
    simp only [get_progress_percentage, hpdf, htp, hc, if_true]
    norm_num

/-- C1, witness: the amended equivalence applied to the 5-page scenario. -/
theorem c1_amended_witness :
    is_reading_complete (applyCalls (mkTracker 5) [(1, 2), (4, 5), (3, 3)]) = true ↔
      callsCover [(1, 2), (4, 5), (3, 3)] 5 :=
  c1_amended.1 5 [(1, 2), (4, 5), (3, 3)] (by norm_num) (by decide)

/-! ## Claim C3 -/

/-- C3, counterexample: `markRead(6, 10)` on a 5-page tracker is accepted without
clamping, so the marked page 6 violates the claimed invariant
`doneUnits ⊆ [1, totalUnits]`. -/
theorem c3_counterexample :
    (6 : ℤ) ∈ (applyCalls (mkTracker 5) [(6, 10)]).pages_read ∧
      (6 : ℤ) ∉ Finset.Icc (1 : ℤ) 5 := by
  decide

/-- C3, amended: `markRead` never rejects a call, but it does not clamp either:
after any call sequence the done-set is exactly the union of the requested
ranges, which need not lie within [1, totalUnits]. -/
theorem c3_amended (total : ℤ) (calls : List (ℤ × ℤ)) (p : ℤ) :
    p ∈ (applyCalls (mkTracker total) calls).pages_read ↔
      ∃ c ∈ calls, c.1 ≤ p ∧ p ≤ c.2 := by
  rw [mem_applyCalls]
  simp [mkTracker]

/-! ## Claim C7 -/

/-- C7, counterexample: with pages_read = {2} of a 3-page document and
chunkSize = 3, `get_next_chunk` returns (1, 3) — a range containing the already
read page 2, refuting "every unit of the returned range is unread". -/
theorem c7_counterexample :
    get_next_chunk (applyCalls (mkTracker 3) [(2, 2)]) 3 = some (1, 3) ∧
      (2 : ℤ) ∈ (applyCalls (mkTracker 3) [(2, 2)]).pages_read ∧
      (1 : ℤ) ≤ 2 ∧ (2 : ℤ) ≤ 3 := by
  decide

/-- C7, amended (page/PDF trackers): `get_next_chunk` returns `none` exactly when
no page of [1, total] is unread; otherwise it returns `(s, e)` where `s` is the
smallest unread page and `e = min(s + chunkSize - 1, total)` — the range starts
at the earliest unread page but may include already-read pages after it. When
the done-set satisfies `doneUnits ⊆ [1, total]`, `none` coincides with
`is_reading_complete`. -/
theorem c7_amended (t : ProgressTracker) (cs : ℤ) (hpdf : t.is_pdf = true) :
    (get_next_chunk t cs = none ↔ get_unread_pages t = []) ∧
    (∀ s e : ℤ, get_next_chunk t cs = some (s, e) →
      s ∈ get_unread_pages t ∧ (∀ p ∈ get_unread_pages t, s ≤ p) ∧
      e = min (s + cs - 1) t.total_pages) ∧
    (t.pages_read ⊆ Finset.Icc 1 t.total_pages →
      (get_next_chunk t cs = none ↔ is_reading_complete t = true)) := by
  have hchunk : get_next_chunk t cs =
      match get_unread_pages t with
      | [] => none
      | s :: _ => some (s, min (s + cs - 1) t.total_pages) := by
    unfold get_next_chunk
    rw [hpdf]
    simp
  cases h : get_unread_pages t with
  | nil =>
    rw [h] at hchunk
    refine ⟨by simp [hchunk, h], ?_, ?_⟩
    · intro s e hs
      rw [hchunk] at hs
      exact absurd hs (by simp)
    · intro hsub
      rw [hchunk]
      simp only [true_iff]
      rw [complete_iff_subset t hpdf hsub]
      intro p hp
      rw [Finset.mem_Icc] at hp
      by_contra hnot
      have : p ∈ get_unread_pages t := (mem_get_unread_pages t p).mpr ⟨hp.1, hp.2, hnot⟩
      rw [h] at this
      exact absurd this (List.not_mem_nil p)
  | cons s rest =>
    rw [h] at hchunk
    have hmin : ∀ p ∈ get_unread_pages t, s ≤ p := by
      intro p hp
      have hpw := get_unread_pages_pairwise t
      rw [h] at hpw
      rw [h] at hp
      rcases List.mem_cons.mp hp with rfl | hp
      · exact le_refl p
      · exact (List.pairwise_cons.mp hpw).1 p hp
    refine ⟨by simp [hchunk], ?_, ?_⟩
    · intro s' e' hs
      rw [hchunk] at hs
      simp only [Option.some.injEq, Prod.mk.injEq] at hs
      obtain ⟨rfl, h2⟩ := hs
      rw [h] at hmin
      exact ⟨List.mem_cons_self s rest, hmin, h2.symm⟩
    · intro hsub
      rw [hchunk]
      simp only [reduceCtorEq, false_iff]
      intro hcompl
      have hicc := (complete_iff_subset t hpdf hsub).mp hcompl
      have hs : s ∈ get_unread_pages t := by rw [h]; exact List.mem_cons_self s rest
      rw [mem_get_unread_pages] at hs
      exact hs.2.2 (hicc (Finset.mem_Icc.mpr ⟨hs.1, hs.2.1⟩))

/-- C7, witness: amended claim applied to pages_read = {1} of a 3-page tracker and
chunkSize = 2, where the chunk is (2, 3). -/
theorem c7_amended_witness :
    (2 : ℤ) ∈ get_unread_pages (applyCalls (mkTracker 3) [(1, 1)]) ∧
      (∀ p ∈ get_unread_pages (applyCalls (mkTracker 3) [(1, 1)]), (2 : ℤ) ≤ p) ∧
      (3 : ℤ) = min (2 + 2 - 1) (applyCalls (mkTracker 3) [(1, 1)]).total_pages :=
  (c7_amended (applyCalls (mkTracker 3) [(1, 1)]) 2 (by decide)).2.1 2 3 (by decide)

/-! ## Claim C10 -/

theorem lookup_cons_ite {β : Type} (k : String) (v : β) (rest : List (String × β)) (s : String) :
    ((k, v) :: rest).lookup s = if s = k then some v else rest.lookup s := by
  by_cases h : s = k
  · simp [List.lookup_cons, beq_iff_eq, h]
  · rw [List.lookup_cons, if_neg h, show (s == k) = false from beq_eq_false_iff_ne.mpr h]

theorem lookup_append_single {β : Type} (m : List (String × β)) (k s : String) (v : β) :
    (m ++ [(k, v)]).lookup s = (m.lookup s).or (if s = k then some v else none) := by
  rw [List.lookup_append]
  rw [lookup_cons_ite]
  by_cases h : s = k <;> simp [h]

theorem lookup_map_keyUpdate {β : Type} (m : List (String × β)) (k : String) (v : β)
    (s : String) :
    (m.map (fun p => if p.1 = k then (k, v) else p)).lookup s =
      if s = k then (m.lookup k).map (fun _ => v) else m.lookup s := by
  induction m with
  | nil => by_cases h : s = k <;> simp [h]
  | cons p rest ih =>
    rcases p with ⟨a, w⟩
    by_cases hak : a = k
    · subst hak
      by_cases hsa : s = a
      · subst hsa
        simp [lookup_cons_ite, ih]
      · simp [lookup_cons_ite, hsa, ih]
    · by_cases hsa : s = a
      · subst hsa
        simp [lookup_cons_ite, hak, ih, Ne.symm hak]
      · by_cases hsk : s = k
        · subst hsk
          simp [lookup_cons_ite, hak, hsa, ih, Ne.symm hak]
        · simp [lookup_cons_ite, hak, hsa, hsk, ih]

theorem initFill_lookup_some {m : List (String × Bool)} {s : String} {b : Bool}
    (h : m.lookup s = some b) (x : String) : (initFill m x).lookup s = some b := by
  unfold initFill
  split
  · rw [lookup_append_single, h]
    rfl
  · exact h

theorem initFill_fold_lookup (l : List String) :
    ∀ (m : List (String × Bool)) (s : String),
      (l.foldl initFill m).lookup s =
        match m.lookup s with
        | some b => some b
        | none => if s ∈ l then some false else none := by
  induction l with
  | nil =>
    intro m s
    simp only [List.foldl_nil, List.not_mem_nil, if_false]
    cases m.lookup s <;> rfl
  | cons x xs ih =>
    intro m s
    rw [List.foldl_cons, ih]
    cases hm : m.lookup s with
    | some b => rw [initFill_lookup_some hm]
    | none =>
      by_cases hsx : s = x
      · subst hsx
        have hifl : (initFill m s).lookup s = some false := by
          unfold initFill
          rw [hm]
          simp only [Option.isNone_none, if_true]
          rw [lookup_append_single, hm, if_pos rfl]
          rfl
        rw [hifl]
        simp
      · have hifl : (initFill m x).lookup s = none := by
          unfold initFill
          split
          · rw [lookup_append_single, hm, if_neg hsx]
            rfl
          · exact hm
        rw [hifl]
        simp [List.mem_cons, hsx]

theorem dictSet_lookup_preserve {β : Type} {m : List (String × β)} {s : String} {b : β}
    (h : m.lookup s = some b) (k : String) (v : β) :
    (dictSet m k v).lookup s = if s = k then some v else some b := by
  unfold dictSet
  by_cases hsk : s = k
  · subst hsk
    have hks : (m.lookup s).isSome := by rw [h]; rfl
    rw [if_pos hks, lookup_map_keyUpdate, if_pos rfl, h, if_pos rfl]
    rfl
  · rw [if_neg hsk]
    split
    · rw [lookup_map_keyUpdate, if_neg hsk, h]
    · rw [lookup_append_single, h]
      rfl

theorem up_pages_sections_filled (t : ProgressTracker) (a : UpdateArgs) :
    (up_pages t a).sections_filled = t.sections_filled := by
  unfold up_pages
  cases a.pages_read_start <;> cases a.pages_read_end <;> rfl

theorem up_lines_sections_filled (t : ProgressTracker) (a : UpdateArgs) :
    (up_lines t a).sections_filled = t.sections_filled := by
  unfold up_lines
  cases a.lines_read_start <;> cases a.lines_read_end <;> rfl

theorem up_template_sections_filled (t : ProgressTracker) (a : UpdateArgs) :
    (up_template t a).sections_filled = t.sections_filled := by
  unfold up_template
  cases a.template_created <;> rfl

theorem up_phase_sections_filled (t : ProgressTracker) (a : UpdateArgs) :
    (up_phase t a).sections_filled = t.sections_filled := by
  unfold up_phase
  cases a.current_phase <;> rfl

theorem up_sections_lookup_some (t : ProgressTracker) (a : UpdateArgs) (s : String) (b : Bool)
    (h : t.sections_filled.lookup s = some b) :
    (up_sections t a).sections_filled.lookup s = some b := by
  unfold up_sections
  cases a.sections_identified with
  | none => exact h
  | some l =>
    simp only
    rw [initFill_fold_lookup, h]

theorem up_section_filled_lookup_true (t : ProgressTracker) (a : UpdateArgs) (s : String)
    (h : t.sections_filled.lookup s = some true) :
    (up_section_filled t a).sections_filled.lookup s = some true := by
  unfold up_section_filled
  cases a.section_filled with
  | none => exact h
  | some name =>
    simp only [mark_section_filled]
    rw [dictSet_lookup_preserve h name true]
    split <;> rfl

/-- C10: re-identifying sections via `update_progress(sections_identified=L)`
initializes the fill flag to `False` only for sections with no existing entry —
an existing entry (either value) is untouched — and a section marked filled
stays filled across every `update_progress` call. -/
theorem c10_sections_identified (t : ProgressTracker) (l : List String) (s : String) :
    (∀ b : Bool, t.sections_filled.lookup s = some b →
      (update_progress t { sections_identified := some l }).sections_filled.lookup s = some b) ∧
    (t.sections_filled.lookup s = none → s ∈ l →
      (update_progress t { sections_identified := some l }).sections_filled.lookup s =
        some false) ∧
    (∀ a : UpdateArgs, t.sections_filled.lookup s = some true →
      (update_progress t a).sections_filled.lookup s = some true) := by
  have hplain : (update_progress t { sections_identified := some l }).sections_filled =
      l.foldl initFill t.sections_filled := rfl
  refine ⟨?_, ?_, ?_⟩
  · intro b hb
    rw [hplain, initFill_fold_lookup, hb]
  · intro hn hmem
    rw [hplain, initFill_fold_lookup, hn]
    simp [hmem]
  · intro a h
    unfold update_progress
    rw [up_phase_sections_filled]
    apply up_section_filled_lookup_true
    apply up_sections_lookup_some
    rw [up_template_sections_filled, up_lines_sections_filled, up_pages_sections_filled]
    exact h

/-- C10, witness: concrete instantiation — an existing `False` entry survives
re-identification, a fresh section is initialized to `False`, and a filled
section stays filled. -/
theorem c10_sections_identified_witness :
    (update_progress { sections_filled := [("intro", false)] : ProgressTracker }
        { sections_identified := some ["intro", "body"] }).sections_filled.lookup "intro" =
      some false ∧
    (update_progress { sections_filled := [("intro", false)] : ProgressTracker }
        { sections_identified := some ["intro", "body"] }).sections_filled.lookup "body" =
      some false ∧
    (update_progress { sections_filled := [("done", true)] : ProgressTracker }
        { sections_identified := some ["done"] }).sections_filled.lookup "done" = some true :=
  ⟨(c10_sections_identified { sections_filled := [("intro", false)] } ["intro", "body"]
      "intro").1 false (by decide),
   (c10_sections_identified { sections_filled := [("intro", false)] } ["intro", "body"]
      "body").2.1 (by decide) (by decide),
   (c10_sections_identified { sections_filled := [("done", true)] } ["done"] "done").2.2
      { sections_identified := some ["done"] } (by decide)⟩

/-! ## Claim C9 -/

/-- C9, counterexample: an empty list is normalized to `"(empty)"`, not to the
empty newline-join claimed for lists "of any length, including empty". -/
theorem c9_counterexample :
    normalize_result (.pyList []) = "(empty)" ∧
      String.intercalate "\n" ([] : List String) = "" ∧
      ("(empty)" : String) ≠ "" := by
  refine ⟨rfl, rfl, ?_⟩
  decide

/-- C9, amended: the loop's normalization maps `None` to `"Success"`, a string to
itself, a non-empty list to its newline-join, the empty list to `"(empty)"`, and
a dict to indent-2 `json.dumps`. -/
theorem c9_amended :
    normalize_result .pyNone = "Success" ∧
    (∀ s : String, normalize_result (.pyStr s) = s) ∧
    (∀ items : List String, items ≠ [] →
      normalize_result (.pyList items) = String.intercalate "\n" items) ∧
    normalize_result (.pyList []) = "(empty)" ∧
    (∀ entries : List (String × String),
      normalize_result (.pyDict entries) = jsonDumpsIndent2 entries) := by
  refine ⟨rfl, fun s => rfl, ?_, rfl, fun entries => rfl⟩
  intro items h
  simp [normalize_result, h]

/-- C9, witness: the non-empty list branch at `["a", "b"]`. -/
theorem c9_amended_witness :
    normalize_result (.pyList ["a", "b"]) = String.intercalate "\n" ["a", "b"] :=
  c9_amended.2.2.1 ["a", "b"] (by decide)

/-! ## Claim C2 -/

theorem placeholder_not_has_tool_calls (tid : String) : ¬ has_tool_calls (placeholderMsg tid) := by
  intro h
  have := h.1
  simp [placeholderMsg] at this

theorem unansweredFree_placeholders (ps : List String) (l : List Msg) :
    unansweredFree (ps.map placeholderMsg ++ l) = unansweredFree l := by
  induction ps with
  | nil => rfl
  | cons p rest ih =>
    simp only [List.map_cons, List.cons_append, unansweredFree, List.append_eq]
    rw [if_neg (placeholder_not_has_tool_calls p), ih]
    simp

theorem toolAnswerIds_placeholders (ps : List String) (l : List Msg) :
    toolAnswerIds (ps.map placeholderMsg ++ l) = ps ++ toolAnswerIds l := by
  induction ps with
  | nil => rfl
  | cons p rest ih =>
    simp only [List.map_cons, List.cons_append, toolAnswerIds, List.filterMap_cons]
    rw [show (if (placeholderMsg p).role = "tool" then (placeholderMsg p).tool_call_id
        else none) = some p from rfl]
    simpa [toolAnswerIds] using ih

theorem orphanOk_placeholders (ps : List String) (l : List Msg) (L : List String)
    (h : ∀ i ∈ ps, i ∈ L) :
    orphanOk (ps.map placeholderMsg ++ l) L = orphanOk l L := by
  induction ps with
  | nil => rfl
  | cons p rest ih =>
    simp only [List.map_cons, List.cons_append, orphanOk, List.append_eq]
    rw [if_pos (show (placeholderMsg p).role = "tool" from rfl)]
    rw [show (placeholderMsg p).tool_call_id = some p from rfl]
    simp only [decide_eq_true_eq]
    rw [ih (fun i hi => h i (List.mem_cons_of_mem p hi))]
    simp [h p (List.mem_cons_self p rest)]

theorem not_has_tool_calls_of_tool {m : Msg} (hrole : m.role = "tool") :
    ¬ has_tool_calls m := by
  intro h
  unfold has_tool_calls at h
  rw [hrole] at h
  exact absurd h.1 (by decide)

theorem validateFix_answered (msgs : List Msg) :
    ∀ pending : List String, pendingOkGo msgs pending = true →
      unansweredFree (validateFixGo msgs pending) = true ∧
        ∀ i ∈ pending, i ∈ toolAnswerIds (validateFixGo msgs pending) := by
  induction msgs with
  | nil =>
    intro pending _
    constructor
    · have := unansweredFree_placeholders pending []
      simpa [validateFixGo] using this
    · intro i hi
      have h2 : toolAnswerIds (pending.map placeholderMsg) = pending := by
        have h3 := toolAnswerIds_placeholders pending ([] : List Msg)
        rw [show toolAnswerIds ([] : List Msg) = [] from rfl, List.append_nil,
          List.append_nil] at h3
        exact h3
      simpa [validateFixGo, h2] using hi
  | cons m rest ih =>
    intro pending hok
    by_cases hrole : m.role = "tool"
    · cases htid : m.tool_call_id with
      | some tid =>
        by_cases hmem : tid ∈ pending
        · have hgo : validateFixGo (m :: rest) pending =
              m :: validateFixGo rest (pending.erase tid) := by
            simp [validateFixGo, hrole, htid, hmem]
          have hok' : pendingOkGo rest (pending.erase tid) = true := by
            simpa [pendingOkGo, hrole, htid, hmem] using hok
          obtain ⟨ih1, ih2⟩ := ih (pending.erase tid) hok'
          constructor
          · rw [hgo]
            simp only [unansweredFree]
            rw [if_neg (not_has_tool_calls_of_tool hrole), ih1]
            simp
          · intro i hi
            rw [hgo]
            simp only [toolAnswerIds, List.filterMap_cons, hrole, if_pos, htid]
            by_cases hit : i = tid
            · simp [hit]
            · have : i ∈ pending.erase tid := List.mem_erase_of_ne hit |>.mpr hi
              simpa [toolAnswerIds] using Or.inr (ih2 i this)
        · have hgo : validateFixGo (m :: rest) pending = validateFixGo rest pending := by
            simp [validateFixGo, hrole, htid, hmem]
          have hok' : pendingOkGo rest pending = true := by
            simpa [pendingOkGo, hrole, htid, hmem] using hok
          rw [hgo]
          exact ih pending hok'
      | none =>
        have hgo : validateFixGo (m :: rest) pending = validateFixGo rest pending := by
          simp [validateFixGo, hrole, htid]
        have hok' : pendingOkGo rest pending = true := by
          simpa [pendingOkGo, hrole, htid] using hok
        rw [hgo]
        exact ih pending hok'
    · by_cases hcalls : has_tool_calls m
      · have hgo : validateFixGo (m :: rest) pending =
            m :: validateFixGo rest (get_tool_call_ids m) := by
          simp [validateFixGo, hrole, hcalls]
        have hok2 : pending.isEmpty = true ∧ pendingOkGo rest (get_tool_call_ids m) = true := by
          simpa [pendingOkGo, hrole, hcalls] using hok
        obtain ⟨ih1, ih2⟩ := ih (get_tool_call_ids m) hok2.2
        constructor
        · rw [hgo]
          simp only [unansweredFree]
          rw [if_pos hcalls, ih1]
          simp only [Bool.and_true]
          rw [List.all_eq_true]
          intro i hi
          simp only [decide_eq_true_eq]
          exact ih2 i hi
        · intro i hi
          rw [List.isEmpty_iff] at hok2
          rw [hok2.1] at hi
          exact absurd hi (List.not_mem_nil i)
      · have hgo : validateFixGo (m :: rest) pending =
            pending.map placeholderMsg ++ m :: validateFixGo rest [] := by
          simp [validateFixGo, hrole, hcalls]
        have hok' : pendingOkGo rest [] = true := by
          simpa [pendingOkGo, hrole, hcalls] using hok
        obtain ⟨ih1, _⟩ := ih [] hok'
        constructor
        · rw [hgo, unansweredFree_placeholders]
          simp only [unansweredFree]
          rw [if_neg hcalls, ih1]
          simp
        · intro i hi
          rw [hgo, toolAnswerIds_placeholders]
          exact List.mem_append_left _ hi

theorem validateFix_orphanFree (msgs : List Msg) :
    ∀ (pending L : List String), (∀ i ∈ pending, i ∈ L) →
      orphanOk (validateFixGo msgs pending) L = true := by
  induction msgs with
  | nil =>
    intro pending L hsub
    have := orphanOk_placeholders pending [] L hsub
    simpa [validateFixGo, orphanOk] using this
  | cons m rest ih =>
    intro pending L hsub
    by_cases hrole : m.role = "tool"
    · cases htid : m.tool_call_id with
      | some tid =>
        by_cases hmem : tid ∈ pending
        · have hgo : validateFixGo (m :: rest) pending =
              m :: validateFixGo rest (pending.erase tid) := by
            simp [validateFixGo, hrole, htid, hmem]
          rw [hgo]
          simp only [orphanOk, hrole, if_pos, htid]
          rw [ih (pending.erase tid) L (fun i hi => hsub i (List.mem_of_mem_erase hi))]
          simp [hsub tid hmem]
        · have hgo : validateFixGo (m :: rest) pending = validateFixGo rest pending := by
            simp [validateFixGo, hrole, htid, hmem]
          rw [hgo]
          exact ih pending L hsub
      | none =>
        have hgo : validateFixGo (m :: rest) pending = validateFixGo rest pending := by
          simp [validateFixGo, hrole, htid]
        rw [hgo]
        exact ih pending L hsub
    · by_cases hcalls : has_tool_calls m
      · have hgo : validateFixGo (m :: rest) pending =
            m :: validateFixGo rest (get_tool_call_ids m) := by
          simp [validateFixGo, hrole, hcalls]
        rw [hgo]
        simp only [orphanOk]
        rw [if_neg hrole, if_pos hcalls]
        exact ih (get_tool_call_ids m) (get_tool_call_ids m) (fun i hi => hi)
      · have hgo : validateFixGo (m :: rest) pending =
            pending.map placeholderMsg ++ m :: validateFixGo rest [] := by
          simp [validateFixGo, hrole, hcalls]
        rw [hgo, orphanOk_placeholders pending _ L hsub]
        simp only [orphanOk]
        rw [if_neg hrole, if_neg hcalls]
        exact ih [] L (fun i hi => absurd hi (List.not_mem_nil i))

/-- C2, counterexample: two consecutive assistant messages each carrying one tool
call ("a" then "b"). The repair pass keeps both, answers only "b" (with a
trailing placeholder), and silently drops the pending id "a": the output has an
unanswered tool-call, refuting the claim for arbitrary inputs. -/
theorem c2_counterexample :
    unansweredFree (validate_and_fix_messages
      [{ role := "assistant", tool_calls := [{ id := "a", name := "f" }] },
       { role := "assistant", tool_calls := [{ id := "b", name := "g" }] }]) = false := by
  decide

/-- C2, amended: the repaired output always has zero orphan tool-results (every
kept or synthesized tool message answers an id of the nearest preceding
assistant-with-tool-calls message), and it has zero unanswered tool-calls
whenever no assistant-with-tool-calls message of the input arrives while earlier
ids are still pending (`inputOk`) — the one situation in which the repair pass
drops pending ids instead of flushing placeholders. -/
theorem c2_amended (msgs : List Msg) :
    orphanOk (validate_and_fix_messages msgs) [] = true ∧
      (inputOk msgs = true → unansweredFree (validate_and_fix_messages msgs) = true) := by
  constructor
  · exact validateFix_orphanFree msgs [] [] (fun i hi => absurd hi (List.not_mem_nil i))
  · intro h
    exact (validateFix_answered msgs [] h).1

/-- C2, witness: a well-formed conversation — assistant calling "a", its answer,
then a user message — repairs to an orphan-free, fully answered output. -/
theorem c2_amended_witness :
    orphanOk (validate_and_fix_messages
      [{ role := "assistant", tool_calls := [{ id := "a", name := "f" }] },
       { role := "tool", tool_call_id := some "a", content := "ok" },
       { role := "user", content := "continue" }]) [] = true ∧
    unansweredFree (validate_and_fix_messages
      [{ role := "assistant", tool_calls := [{ id := "a", name := "f" }] },
       { role := "tool", tool_call_id := some "a", content := "ok" },
       { role := "user", content := "continue" }]) = true :=
  ⟨(c2_amended _).1, (c2_amended _).2 (by decide)⟩

/-! ## Claim C8 -/

/-- C8: `truncate_if_needed` returns its input unchanged whenever the estimated
tokens fit the budget. -/
theorem c8_no_op (cm : ContextManager) (msgs : List Msg) (tracker : Option ProgressTracker)
    (h : (estimate_tokens msgs : ℤ) ≤ cm.max_tokens) :
    truncate_if_needed cm msgs tracker = msgs := by
  unfold truncate_if_needed
  rw [if_pos h]

/-- C8, witness: a two-message conversation far under the default budget. -/
theorem c8_no_op_witness :
    truncate_if_needed { max_tokens := 200000, min_recent_messages := 10 }
      [{ role := "system", content := "sys" }, { role := "user", content := "task" }] none =
      [{ role := "system", content := "sys" }, { role := "user", content := "task" }] :=
  c8_no_op { max_tokens := 200000, min_recent_messages := 10 }
    [{ role := "system", content := "sys" }, { role := "user", content := "task" }] none
    (by decide)

/-! ## Claim C6 -/

theorem validateFixGo_cons_simple {m : Msg} (hr : ¬ m.role = "tool")
    (hc : ¬ has_tool_calls m) (l : List Msg) :
    validateFixGo (m :: l) [] = m :: validateFixGo l [] := by
  simp [validateFixGo, hr, hc]

/-- C6, counterexample: when the first unit is an assistant message whose tool
call is answered twice, truncation's repair pass drops the duplicate answer, so
the first two units are not reproduced byte-for-byte even though truncation ran
(the input is over budget with more than three units). -/
theorem c6_counterexample :
    ({ max_tokens := 0, min_recent_messages := 10 } : ContextManager).max_tokens <
      (estimate_tokens
        [{ role := "assistant", content := "x", tool_calls := [{ id := "a", name := "f" }] },
         { role := "tool", tool_call_id := some "a", content := "r" },
         { role := "tool", tool_call_id := some "a", content := "r" },
         userMsg "u", userMsg "u", userMsg "u"] : ℤ) ∧
    3 < (groupUnits
        [{ role := "assistant", content := "x", tool_calls := [{ id := "a", name := "f" }] },
         { role := "tool", tool_call_id := some "a", content := "r" },
         { role := "tool", tool_call_id := some "a", content := "r" },
         userMsg "u", userMsg "u", userMsg "u"]).length ∧
    ((groupUnits
        [{ role := "assistant", content := "x", tool_calls := [{ id := "a", name := "f" }] },
         { role := "tool", tool_call_id := some "a", content := "r" },
         { role := "tool", tool_call_id := some "a", content := "r" },
         userMsg "u", userMsg "u", userMsg "u"]).take 2).flatten =
      [{ role := "assistant", content := "x", tool_calls := [{ id := "a", name := "f" }] },
       { role := "tool", tool_call_id := some "a", content := "r" },
       { role := "tool", tool_call_id := some "a", content := "r" },
       userMsg "u"] ∧
    (truncate_if_needed { max_tokens := 0, min_recent_messages := 10 }
        [{ role := "assistant", content := "x", tool_calls := [{ id := "a", name := "f" }] },
         { role := "tool", tool_call_id := some "a", content := "r" },
         { role := "tool", tool_call_id := some "a", content := "r" },
         userMsg "u", userMsg "u", userMsg "u"] none).take 4 ≠
      [{ role := "assistant", content := "x", tool_calls := [{ id := "a", name := "f" }] },
       { role := "tool", tool_call_id := some "a", content := "r" },
       { role := "tool", tool_call_id := some "a", content := "r" },
       userMsg "u"] := by
  refine ⟨by decide, by decide, by decide, by decide⟩

/-- C6, amended: when the first two messages are singleton units — each neither a
tool message nor an assistant message with tool calls, as the original system
and task prompts are — and truncation runs, the output starts with exactly those
two messages unchanged. -/
theorem c6_amended (cm : ContextManager) (tracker : Option ProgressTracker)
    (m1 m2 : Msg) (rest : List Msg)
    (h1r : ¬ m1.role = "tool") (h1c : ¬ has_tool_calls m1)
    (h2r : ¬ m2.role = "tool") (h2c : ¬ has_tool_calls m2)
    (hbudget : cm.max_tokens < (estimate_tokens (m1 :: m2 :: rest) : ℤ))
    (hunits : 3 < (groupUnits (m1 :: m2 :: rest)).length) :
    (truncate_if_needed cm (m1 :: m2 :: rest) tracker).take 2 = [m1, m2] := by
  have hgroup : groupUnits (m1 :: m2 :: rest) = [m1] :: [m2] :: groupUnits rest := by
    rw [groupUnits_cons_simple h1c, groupUnits_cons_simple h2c]
  unfold truncate_if_needed
  rw [if_neg (not_le.mpr hbudget), if_neg (not_le.mpr hunits)]
  unfold preRepair
  rw [hgroup]
  rw [show (([m1] :: [m2] :: groupUnits rest).take 2).flatten = [m1, m2] from rfl]
  rw [show ([m1, m2] ++ [recoveryMsg tracker] ++
      (keptUnits cm (m1 :: m2 :: rest) tracker).flatten) =
      m1 :: m2 :: (recoveryMsg tracker ::
        (keptUnits cm (m1 :: m2 :: rest) tracker).flatten) from by simp]
  unfold validate_and_fix_messages
  rw [validateFixGo_cons_simple h1r h1c, validateFixGo_cons_simple h2r h2c]
  rfl

/-- C6, witness: an over-budget conversation opening with system and user
singentence units keeps them verbatim at the head of the truncated output. -/
theorem c6_amended_witness :
    (truncate_if_needed { max_tokens := 0, min_recent_messages := 10 }
        ({ role := "system", content := "sys" } :: userMsg "task" ::
          [userMsg "one", userMsg "two", userMsg "three"]) none).take 2 =
      [{ role := "system", content := "sys" }, userMsg "task"] :=
  c6_amended { max_tokens := 0, min_recent_messages := 10 } none
    { role := "system", content := "sys" } (userMsg "task")
    [userMsg "one", userMsg "two", userMsg "three"]
    (by decide) (by decide) (by decide) (by decide) (by decide) (by decide)

/-! ## Claim C5 -/

theorem estimate_tokens_append (l₁ l₂ : List Msg) :
    estimate_tokens (l₁ ++ l₂) ≤ estimate_tokens l₁ + estimate_tokens l₂ + 1 := by
  unfold estimate_tokens
  rw [List.map_append, List.sum_append]
  omega

theorem estimate_tokens_flatten (L : List (List Msg)) :
    estimate_tokens L.flatten ≤ (L.map estimate_tokens).sum + L.length := by
  induction L with
  | nil => simp [estimate_tokens]
  | cons u L ih =>
    rw [List.flatten_cons]
    have h1 := estimate_tokens_append u L.flatten
    simp only [List.map_cons, List.sum_cons, List.length_cons]
    omega

theorem greedyTake_bound (l : List (List Msg)) :
    ∀ used available : ℤ, greedyTake l used available = [] ∨
      used + ((greedyTake l used available).map
        (fun u => (estimate_tokens u : ℤ))).sum ≤ available := by
  induction l with
  | nil => intro used avail; left; rfl
  | cons u rest ih =>
    intro used avail
    by_cases h : used + (estimate_tokens u : ℤ) ≤ avail
    · right
      rw [show greedyTake (u :: rest) used avail =
          u :: greedyTake rest (used + (estimate_tokens u : ℤ)) avail from by
        simp [greedyTake, h]]
      rcases ih (used + (estimate_tokens u : ℤ)) avail with h0 | hle
      · rw [h0]
        simpa using h
      · simp only [List.map_cons, List.sum_cons]
        omega
    · left
      simp [greedyTake, h]

theorem selectKept_bound (remaining : List (List Msg)) (available : ℤ)
    (h : selectKept remaining available ≠ []) :
    ((selectKept remaining available).map (fun u => (estimate_tokens u : ℤ))).sum ≤
      available := by
  rcases greedyTake_bound remaining.reverse 0 available with h0 | hle
  · rw [selectKept, h0] at h
    simp at h
  · rw [selectKept, List.map_reverse, List.sum_reverse]
    simpa using hle

/-- C5, counterexample: the claim fails on the force-keep fallback. With budget
100 the feasible retention [system, user, recovery] fits (50 estimated tokens),
but the greedy scan (whose headroom budget − start − recovery − 10000 is
negative) keeps nothing, so the last three units are force-kept "regardless of
budget" and the output estimates to 230 tokens, over budget. -/
theorem c5_counterexample :
    ({ max_tokens := 100, min_recent_messages := 10 } : ContextManager).max_tokens <
      (estimate_tokens [{ role := "system", content := "s" }, userMsg "u",
        userMsg (bigStr 200), userMsg (bigStr 200), userMsg (bigStr 200),
        userMsg (bigStr 200)] : ℤ) ∧
    (estimate_tokens (((groupUnits [{ role := "system", content := "s" }, userMsg "u",
        userMsg (bigStr 200), userMsg (bigStr 200), userMsg (bigStr 200),
        userMsg (bigStr 200)]).take 2).flatten ++ [recoveryMsg none]) : ℤ) ≤
      ({ max_tokens := 100, min_recent_messages := 10 } : ContextManager).max_tokens ∧
    ({ max_tokens := 100, min_recent_messages := 10 } : ContextManager).max_tokens <
      (estimate_tokens (truncate_if_needed
        { max_tokens := 100, min_recent_messages := 10 }
        [{ role := "system", content := "s" }, userMsg "u",
         userMsg (bigStr 200), userMsg (bigStr 200), userMsg (bigStr 200),
         userMsg (bigStr 200)] none) : ℤ) := by
  refine ⟨by decide, by decide, by decide⟩

/-- C5, amended: whenever truncation runs and the greedy newest-to-oldest scan
itself selects the kept units (at least `min_recent_messages // 2` of them, so
the force-keep fallback stays off), the repair pass changes nothing, and at most
9996 units are kept (the 10000-token safety buffer absorbs the per-unit integer
rounding), the truncated output's estimated tokens are within the budget. -/
theorem c5_amended (cm : ContextManager) (msgs : List Msg) (tracker : Option ProgressTracker)
    (hover : cm.max_tokens < (estimate_tokens msgs : ℤ))
    (hunits : 3 < (groupUnits msgs).length)
    (hkept : ¬ (selectKept ((groupUnits msgs).drop 2)
        (availableTokens cm msgs tracker)).length < cm.min_recent_messages / 2)
    (hne : selectKept ((groupUnits msgs).drop 2) (availableTokens cm msgs tracker) ≠ [])
    (hcount : (selectKept ((groupUnits msgs).drop 2)
        (availableTokens cm msgs tracker)).length ≤ 9996)
    (hrepair : validate_and_fix_messages (preRepair cm msgs tracker) =
        preRepair cm msgs tracker) :
    (estimate_tokens (truncate_if_needed cm msgs tracker) : ℤ) ≤ cm.max_tokens := by
  unfold truncate_if_needed
  rw [if_neg (not_le.mpr hover), if_neg (not_le.mpr hunits), hrepair]
  have hKU : keptUnits cm msgs tracker =
      selectKept ((groupUnits msgs).drop 2) (availableTokens cm msgs tracker) := by
    unfold keptUnits
    exact if_neg (fun hcon => hkept hcon.1)
  unfold preRepair
  rw [hKU]
  set U := groupUnits msgs with hU
  set K := selectKept (U.drop 2) (availableTokens cm msgs tracker) with hK
  set R := recoveryMsg tracker with hR
  set A := (U.take 2).flatten with hA
  -- recovery message shape facts
  have hRchars : msgChars R = R.content.length := by
    have hobj : R.isObject = false := by rw [hR]; rfl
    simp [msgChars, hobj]
  have hestR : estimate_tokens [R] = R.content.length * 3 / 10 := by
    unfold estimate_tokens
    simp [hRchars]
  -- append superadditivity
  have happ1 : estimate_tokens (A ++ [R] ++ K.flatten) ≤
      estimate_tokens (A ++ [R]) + estimate_tokens K.flatten + 1 :=
    estimate_tokens_append _ _
  have happ2 : estimate_tokens (A ++ [R]) ≤
      estimate_tokens A + estimate_tokens [R] + 1 :=
    estimate_tokens_append _ _
  -- start units
  have hAle : estimate_tokens A ≤ ((U.take 2).map estimate_tokens).sum + 2 := by
    have h1 := estimate_tokens_flatten (U.take 2)
    rw [← hA] at h1
    have h2 : (U.take 2).length ≤ 2 := List.length_take_le 2 U
    omega
  -- kept units
  have hKle : estimate_tokens K.flatten ≤ (K.map estimate_tokens).sum + K.length :=
    estimate_tokens_flatten K
  have hKsumCast : (((K.map estimate_tokens).sum : ℕ) : ℤ) =
      (K.map (fun u => (estimate_tokens u : ℤ))).sum := by
    rw [Nat.cast_list_sum, List.map_map]
    rfl
  have hKbound : (K.map (fun u => (estimate_tokens u : ℤ))).sum ≤
      availableTokens cm msgs tracker := selectKept_bound _ _ hne
  have havail : availableTokens cm msgs tracker =
      cm.max_tokens - (((U.take 2).map (fun u => estimate_tokens u)).sum : ℤ) -
        ((R.content.length * 3 / 10 : ℕ) : ℤ) - 10000 := rfl
  rw [havail] at hKbound
  -- assemble in ℤ
  have hcast1 : (estimate_tokens (A ++ [R] ++ K.flatten) : ℤ) ≤
      (estimate_tokens A : ℤ) + (estimate_tokens [R] : ℤ) +
        (estimate_tokens K.flatten : ℤ) + 2 := by
    exact_mod_cast Nat.le_trans happ1 (by omega)
  have hcast2 : (estimate_tokens A : ℤ) ≤
      ((((U.take 2).map estimate_tokens).sum : ℕ) : ℤ) + 2 := by exact_mod_cast hAle
  have hcast3 : (estimate_tokens K.flatten : ℤ) ≤
      ((((K.map estimate_tokens).sum : ℕ) : ℤ)) + (K.length : ℤ) := by exact_mod_cast hKle
  have hcast4 : (estimate_tokens [R] : ℤ) = ((R.content.length * 3 / 10 : ℕ) : ℤ) := by
    exact_mod_cast hestR
  have hcount' : (K.length : ℤ) ≤ 9996 := by exact_mod_cast hcount
  have hEta : (U.take 2).map (fun u => estimate_tokens u) = (U.take 2).map estimate_tokens :=
    rfl
  rw [hEta] at hKbound
  omega

/-- C5, witness: the amended claim applied to `greedyMsgs` under `greedyCm`
(estimate 10086 > budget 10061; the greedy scan keeps exactly the newest
40-character unit within its headroom of 12 tokens and the output fits the
budget). -/
theorem bigStr_length (n : ℕ) : (bigStr n).length = n := List.length_replicate n 'a'

theorem estimate_tokens_eq (msgs : List Msg) :
    estimate_tokens msgs = ((msgs.map msgChars).sum * 3) / 10 := rfl

theorem msgChars_userMsg (s : String) : msgChars (userMsg s) = s.length := by
  simp [userMsg, msgChars]

theorem c5_amended_witness :
    (estimate_tokens (truncate_if_needed greedyCm greedyMsgs none) : ℤ) ≤
      greedyCm.max_tokens := by
  have hover : greedyCm.max_tokens < (estimate_tokens greedyMsgs : ℤ) := by
    have hsum : (greedyMsgs.map msgChars).sum = 33622 := by
      simp only [greedyMsgs, List.map_cons, List.map_nil, msgChars_userMsg,
        bigStr_length, List.sum_cons, List.sum_nil]
      rw [show (msgChars { role := "system", content := "s" }) = 1 from by decide,
        show ("u".length) = 1 from rfl]
      norm_num
    have hest : estimate_tokens greedyMsgs = 10086 := by
      rw [estimate_tokens_eq, hsum]
    rw [hest]
    decide
  exact c5_amended greedyCm greedyMsgs none hover (by decide) (by decide) (by decide)
    (by decide) (by decide)

/-! ## Claim C4 -/

theorem check_completion_true {tracker : Option ProgressTracker} {s : String}
    (h : check_completion_allowed tracker = (true, s)) :
    ∃ t, tracker = some t ∧ is_reading_complete t = true := by
  cases tracker with
  | none => simp [check_completion_allowed] at h
  | some t =>
    refine ⟨t, rfl, ?_⟩
    simp only [check_completion_allowed] at h
    by_cases hc : is_reading_complete t = true
    · exact hc
    · rw [if_pos hc] at h
      simp at h

theorem afterResponse_success (env : Env) (runRest : LoopState → RunResult × LoopState)
    (hrest : ∀ st st', runRest st = (.success, st') →
      ∃ t, st'.tracker = some t ∧ is_reading_complete t = true)
    (st : LoopState) (resp : LLMResponse) (st' : LoopState)
    (h : afterResponse env runRest st resp = (.success, st')) :
    ∃ t, st'.tracker = some t ∧ is_reading_complete t = true := by
  unfold afterResponse at h
  by_cases hcalls : resp.tool_calls = []
  · rw [if_pos hcalls] at h
    split at h
    · rename_i heq
      obtain ⟨-, rfl⟩ := (Prod.mk.injEq _ _ _ _).mp h
      exact check_completion_true heq
    · exact hrest _ _ h
  · rw [if_neg hcalls] at h
    split at h
    · simp at h
    · exact hrest _ _ h

/-- C4: for every model behavior and every tool-handler behavior (any `Env`), the
iteration loop never returns success while `is_reading_complete` is false: a
success exit implies the tracker exists and reading is complete at that moment.
A no-tool-call response with an unsatisfied gate takes the rejection branch,
which appends the "Cannot finish" user message and recurses instead of
returning. -/
theorem c4_no_premature_success (env : Env) :
    ∀ (fuel : ℕ) (st st' : LoopState),
      runLoop env fuel st = (.success, st') →
      ∃ t, st'.tracker = some t ∧ is_reading_complete t = true := by
  intro fuel
  induction fuel with
  | zero =>
    intro st st' h
    simp [runLoop] at h
  | succ fuel ih =>
    intro st st' h
    unfold runLoop at h
    simp only [] at h
    split at h
    · exact afterResponse_success env (runLoop env fuel) (fun a b => ih a b) _ _ _ h
    · split at h
      · split at h
        · simp at h
        · exact afterResponse_success env (runLoop env fuel) (fun a b => ih a b) _ _ _ h
      · simp at h

/-- C4, witness: the theorem applied to a run that exits successfully on its
first iteration (zero-page document, model answers without tool calls). -/
theorem c4_no_premature_success_witness :
    (runLoop doneEnv 1 doneState).1 = RunResult.success ∧
      ∃ t, (runLoop doneEnv 1 doneState).2.tracker = some t ∧
        is_reading_complete t = true := by
  have h1 : (runLoop doneEnv 1 doneState).1 = RunResult.success := by decide
  refine ⟨h1, ?_⟩
  have hp : runLoop doneEnv 1 doneState =
      (RunResult.success, (runLoop doneEnv 1 doneState).2) := by
    conv_lhs => rw [← Prod.mk.eta (p := runLoop doneEnv 1 doneState)]
    rw [h1]
  exact c4_no_premature_success doneEnv 1 doneState (runLoop doneEnv 1 doneState).2 hp
